import Mathlib

/-!
# Trace sinks of the mmWave UAV / IRS scenarios

A shallow embedding of the measurement callbacks of `simu71_irs_jam.cc` and
`NoJam_simulation.cc.cc`: `PathLossTraceSink`, `ThroughputTrace` (the same text in
both files) and the effective-gain computation in `main` of `simu71_irs_jam.cc`.

Modelling conventions.

* A `std::string` is the list of its characters.
* An ns-3 `Time` is its tick count, in the default resolution of one nanosecond
  (neither scenario changes the resolution).  `Simulator::Now()` is never negative,
  so the clock is a `Nat`; `GetSeconds()` of `n` ticks is the rational `n / 10^9`.
  The test `(now - last).GetSeconds() >= 0.1` is the integer test
  `10^8 ≤ now - last` on ticks, and `GetSeconds() == 0` is `ticks = 0`.
* A `double` is an exact rational; the two non-finite results that a division by a
  zero denominator produces are kept apart as `Value.inf` and `Value.nan`.
* `uint64_t` and `uint32_t` arithmetic is arithmetic modulo `2^64` and `2^32`;
  `unsigned long` has 64 bits.
* A `std::ofstream` is its open flag together with the data rows streamed into it
  so far, each row being the pair of values handed to `operator<<`.
* The function-local `static std::map`s of `ThroughputTrace` are total functions
  with default `0`, which is what `operator[]` makes of a missing key.
* A C++ exception that leaves a callback is recorded in the `fault` field of the
  callback's outcome, next to the state the statics are left in.
-/

namespace IrsJam

/-! ## Strings -/

/-- A `std::string`. -/
abbrev Str := List Char

/-- The literal `"/NodeList/"` that `ThroughputTrace` searches for. -/
def nodeListMarker : Str := ['/', 'N', 'o', 'd', 'e', 'L', 'i', 's', 't', '/']

/-- The literal `"/"` that `ThroughputTrace` searches for after the marker. -/
def slash : Str := ['/']

/-- The ways in which the modelled code can fail loudly: the two exceptions of the
standard library that it can throw, and an access outside the bounds of a
`std::vector`. -/
inductive Fault where
  | invalid_argument
  | out_of_range
  | out_of_bounds
  deriving DecidableEq, Repr

deriving instance DecidableEq for Except

/-- The scan of `std::string::find`: `s` is the part of the string from index `i`
on; the result is the index of the first position at or after `i` where `needle`
starts, `none` standing for `npos`. -/
def findAux (needle : Str) : Str → Nat → Option Nat
  | [], i => if needle.isPrefixOf [] then some i else none
  | c :: cs, i => if needle.isPrefixOf (c :: cs) then some i else findAux needle cs (i + 1)

/-- The call `s.find(needle, pos)` of `std::string`: `none` is `npos`. -/
def find (s needle : Str) (pos : Nat) : Option Nat :=
  if s.length < pos then none else findAux needle (s.drop pos) pos

/-- The call `s.substr(pos, n)` of `std::string`, which throws `std::out_of_range`
when `pos` is beyond the end of the string. -/
def substr (s : Str) (pos n : Nat) : Except Fault Str :=
  if s.length < pos then .error .out_of_range else .ok ((s.drop pos).take n)

/-- The `isspace` test of the C locale. -/
def isspace (c : Char) : Bool := c.toNat = 32 || (9 ≤ c.toNat && c.toNat ≤ 13)

/-- The `isdigit` test. -/
def isdigit (c : Char) : Bool := 48 ≤ c.toNat && c.toNat ≤ 57

/-- The value of a decimal digit. -/
def digitVal (c : Char) : Nat := c.toNat - 48

/-- The number that a string of decimal digits denotes. -/
def digitsValue (cs : Str) : Nat := cs.foldl (fun acc c => 10 * acc + digitVal c) 0

/-- The optional sign that `strtoul` accepts in front of the digits: whether it
is a minus, and the rest of the string. -/
def stripSign : Str → Bool × Str
  | '-' :: r => (true, r)
  | '+' :: r => (false, r)
  | s => (false, s)

/-- The call `std::stoul(str)` (base 10, no position output), that is `strtoul`
followed by the checks of the wrapper: leading white space is skipped, one sign is
accepted, the longest run of digits is converted and what follows is ignored.
No digit at all throws `std::invalid_argument`; a value that does not fit
`unsigned long` throws `std::out_of_range`; a minus sign negates the value modulo
`2^64`. -/
def stoul (str : Str) : Except Fault Nat :=
  let signed := stripSign (str.dropWhile isspace)
  let ds := signed.2.takeWhile isdigit
  if ds.isEmpty then .error .invalid_argument
  else
    let v := digitsValue ds
    if 2 ^ 64 ≤ v then .error .out_of_range
    else .ok (if signed.1 then (2 ^ 64 - v) % 2 ^ 64 else v)

/-! ## Output streams -/

/-- A `double` that was streamed into a file: a finite number, or one of the two
results of dividing by zero. -/
inductive Value where
  | fin (q : ℚ)
  | inf
  | nan
  deriving DecidableEq

/-- One data row of a CSV file: the tick count whose `GetSeconds()` was streamed
first, and the value streamed after the comma. -/
structure Row where
  time : Nat
  value : Value
  deriving DecidableEq

/-- A `std::ofstream`: whether it is open, and the data rows written so far. -/
structure OfStream where
  is_open : Bool
  rows : List Row
  deriving DecidableEq

/-- The statement `file << t << "," << v << std::endl`. -/
def OfStream.write (f : OfStream) (r : Row) : OfStream := { f with rows := f.rows ++ [r] }

/-- The guarded write shared by both sinks:
`if (id < files.size() && files[id].is_open()) files[id] << row`.
The element is read only after the bound test, as `&&` evaluates left to right;
an access outside the vector is the fault `out_of_bounds`. -/
def writeRow (files : List OfStream) (id : Nat) (r : Row) : Except Fault (List OfStream) :=
  if id < files.length then
    match files[id]? with
    | none => .error .out_of_bounds
    | some f => if f.is_open then .ok (files.set id (f.write r)) else .ok files
  else .ok files

/-- The call `GetSeconds()` on a time of `ticks` nanoseconds. -/
def seconds (ticks : Nat) : ℚ := (ticks : ℚ) / 1000000000

/-! ## `PathLossTraceSink` -/

namespace NoJam

/-- The sink `PathLossTraceSink` of `NoJam_simulation.cc.cc`, lines 28-35.
`rxNodeId` is the identifier read from `rxPhy`, `now` is `Simulator::Now()`. -/
def PathLossTraceSink (g_rssiFiles : List OfStream) (rxNodeId now : Nat) (lossDb : ℚ) :
    Except Fault (List OfStream) :=
  writeRow g_rssiFiles rxNodeId ⟨now, .fin lossDb⟩

end NoJam

namespace Jam

/-- The sink `PathLossTraceSink` of `simu71_irs_jam.cc`, lines 42-49: the value
streamed is `10 - lossDb`. -/
def PathLossTraceSink (g_rssiFiles : List OfStream) (rxNodeId now : Nat) (lossDb : ℚ) :
    Except Fault (List OfStream) :=
  writeRow g_rssiFiles rxNodeId ⟨now, .fin (10 - lossDb)⟩

end Jam

/-! ## `ThroughputTrace` -/

/-- The statics of `ThroughputTrace` and the global `g_throughputFiles`. -/
structure TraceState where
  bytesReceived : Str → Nat
  lastTime : Str → Nat
  g_throughputFiles : List OfStream

/-- What a call of `ThroughputTrace` leaves behind: the state, and the fault that
ended the call early, if one did. -/
structure Outcome where
  state : TraceState
  fault : Option Fault

/-- The expression `(bytes * 8.0) / (now.GetSeconds() * 1000000.0)`. -/
def throughputOf (bytes now : Nat) : Value :=
  if now = 0 then (if bytes = 0 then .nan else .inf)
  else .fin (((bytes : ℚ) * 8) / (seconds now * 1000000))

/-- The node-index resolution inside `ThroughputTrace` (lines 63-70 of
`simu71_irs_jam.cc`, 49-56 of `NoJam_simulation.cc.cc`): `.ok (some n)` is the
`nodeId` reached by the innermost `if`, `.ok none` is one of the two `npos` tests
failing, `.error e` is an exception thrown on the way. -/
def nodeIdOfContext (context : Str) : Except Fault (Option Nat) :=
  match find context nodeListMarker 0 with
  | none => .ok none
  | some pos =>
    let start := pos + 10
    match find context slash start with
    | none => .ok none
    | some end_ =>
      match substr context start (end_ - start) with
      | .error e => .error e
      | .ok seg =>
        match stoul seg with
        | .error e => .error e
        | .ok v => .ok (some (v % 2 ^ 32))

/-- The test `lastTime[context].GetSeconds() == 0 ||
(now - lastTime[context]).GetSeconds() >= 0.1` on the stored time `last`. -/
def windowCloses (last now : Nat) : Prop :=
  last = 0 ∨ (100000000 : Int) ≤ (now : Int) - (last : Int)

instance (last now : Nat) : Decidable (windowCloses last now) := by
  unfold windowCloses
  infer_instance

/-- The statement `bytesReceived[context] += packet->GetSize()` on a `uint64_t`. -/
def addBytes (s : TraceState) (context : Str) (packetSize : Nat) : TraceState :=
  { s with bytesReceived :=
      Function.update s.bytesReceived context ((s.bytesReceived context + packetSize) % 2 ^ 64) }

/-- The statement `lastTime[context] = now`. -/
def setLastTime (s : TraceState) (context : Str) (now : Nat) : TraceState :=
  { s with lastTime := Function.update s.lastTime context now }

/-- The callback `ThroughputTrace(context, packet)`, with `packetSize` for
`packet->GetSize()` and `now` for `Simulator::Now()`. -/
def ThroughputTrace (s : TraceState) (context : Str) (packetSize now : Nat) : Outcome :=
  let s1 := addBytes s context packetSize
  if windowCloses (s1.lastTime context) now then
    let throughput := throughputOf (s1.bytesReceived context) now
    match nodeIdOfContext context with
    | .error e => ⟨s1, some e⟩
    | .ok none => ⟨setLastTime s1 context now, none⟩
    | .ok (some nodeId) =>
      match writeRow s1.g_throughputFiles nodeId ⟨now, throughput⟩ with
      | .error e => ⟨s1, some e⟩
      | .ok files => ⟨setLastTime { s1 with g_throughputFiles := files } context now, none⟩
  else ⟨s1, none⟩

/-- A delivery event: the arguments of one call of `ThroughputTrace` and the clock
at the call. -/
structure Event where
  context : Str
  size : Nat
  now : Nat

/-- The scheduler delivering events one after another; a fault ends the run. -/
def runTrace (s : TraceState) : List Event → Outcome
  | [] => ⟨s, none⟩
  | e :: es =>
    match ThroughputTrace s e.context e.size e.now with
    | ⟨s1, none⟩ => runTrace s1 es
    | ⟨s1, some x⟩ => ⟨s1, some x⟩

/-- The statics before the first call, next to the files as `main` opened them. -/
def freshState (files : List OfStream) : TraceState :=
  { bytesReceived := fun _ => 0, lastTime := fun _ => 0, g_throughputFiles := files }

/-- The data rows of the file of node `i`, none when there is no such file. -/
def rowsAt (files : List OfStream) (i : Nat) : List Row :=
  match files[i]? with
  | some f => f.rows
  | none => []

/-- The sum of the byte counts of the events of `evs` whose context is `c`. -/
def totalBytes (c : Str) : List Event → Nat
  | [] => 0
  | e :: es => (if e.context = c then e.size else 0) + totalBytes c es

/-- Two rows at least 0.1 s apart, the earlier one first. -/
def Spaced (a b : Row) : Prop := a.time + 100000000 ≤ b.time

/-! ## The effective gain in `main` -/

theorem findAux_skip (needle pre rest : Str) (i : Nat)
    (h : ∀ k, k < pre.length → ¬ needle <+: (pre ++ rest).drop k) :
    findAux needle (pre ++ rest) i = findAux needle rest (i + pre.length) := by
  induction pre generalizing i with
  | nil => simp
  | cons c cs ih =>
    have h0 : ¬ needle <+: c :: (cs ++ rest) := by simpa using h 0 (by simp)
    have hrec : ∀ k, k < cs.length → ¬ needle <+: (cs ++ rest).drop k := by
      intro k hk
      simpa using h (k + 1) (by simpa using hk)
    have hb : needle.isPrefixOf (c :: (cs ++ rest)) = false := by
      rw [Bool.eq_false_iff]
      intro hp
      exact h0 (List.isPrefixOf_iff_prefix.mp hp)
    show findAux needle (c :: (cs ++ rest)) i = _
    rw [findAux, hb, if_neg (by simp), ih (i + 1) hrec]
    simp [Nat.add_assoc, Nat.add_comm 1]

theorem findAux_hit (needle rest : Str) (i : Nat) (h : needle <+: rest) :
    findAux needle rest i = some i := by
  have hb : needle.isPrefixOf rest = true := List.isPrefixOf_iff_prefix.mpr h
  cases rest with
  | nil => simp [findAux, hb]
  | cons c cs => simp [findAux, hb]

theorem prefix_drop_of_infix_free (needle pre rest : Str) (hne : needle ≠ [])
    (h : ¬ needle <:+: pre ++ needle.dropLast) :
    ∀ k, k < pre.length → ¬ needle <+: (pre ++ (needle ++ rest)).drop k := by
  intro k hk hp
  apply h
  have hsplit : (pre ++ (needle ++ rest)).drop k = pre.drop k ++ (needle ++ rest) := by
    rw [List.drop_append_of_le_length (Nat.le_of_lt hk)]
  rw [hsplit] at hp
  have hd : needle.dropLast ++ [needle.getLast hne] = needle := List.dropLast_append_getLast hne
  have hp2 : pre.drop k ++ needle.dropLast <+: pre.drop k ++ (needle ++ rest) := by
    refine (List.prefix_append_right_inj _).mpr ?_
    exact (List.dropLast_prefix needle).trans (List.prefix_append _ _)
  have hlen : needle.length ≤ (pre.drop k ++ needle.dropLast).length := by
    have h1 : 0 < (pre.drop k).length := by simp; omega
    have h2 : 0 < needle.length := List.length_pos.mpr hne
    simp only [List.length_append, List.length_dropLast]
    omega
  have hp3 : needle <+: pre.drop k ++ needle.dropLast :=
    List.prefix_of_prefix_length_le hp hp2 hlen
  obtain ⟨t, ht⟩ := hp3
  refine ⟨pre.take k, t, ?_⟩
  rw [List.append_assoc, ht, ← List.append_assoc, List.take_append_drop]

theorem findAux_first (needle pre rest : Str) (i : Nat) (hne : needle ≠ [])
    (h : ¬ needle <:+: pre ++ needle.dropLast) :
    findAux needle (pre ++ (needle ++ rest)) i = some (i + pre.length) := by
  rw [findAux_skip needle pre (needle ++ rest) i (prefix_drop_of_infix_free needle pre rest hne h),
    findAux_hit needle (needle ++ rest) _ (List.prefix_append _ _)]

theorem find_first (needle pre rest : Str) (hne : needle ≠ [])
    (h : ¬ needle <:+: pre ++ needle.dropLast) :
    find (pre ++ (needle ++ rest)) needle 0 = some pre.length := by
  unfold find
  rw [if_neg (by simp), List.drop_zero, findAux_first needle pre rest 0 hne h]
  simp

theorem find_at (a b needle : Str) :
    find (a ++ b) needle a.length = findAux needle b a.length := by
  unfold find
  rw [if_neg (by simp), List.drop_left]

theorem findAux_none (needle s : Str) (i : Nat) (h : ¬ needle <:+: s) :
    findAux needle s i = none := by
  induction s generalizing i with
  | nil =>
    have hb : needle.isPrefixOf [] = false := by
      rw [Bool.eq_false_iff]
      intro hp
      exact h (List.isPrefixOf_iff_prefix.mp hp).isInfix
    simp [findAux, hb]
  | cons c cs ih =>
    have hb : needle.isPrefixOf (c :: cs) = false := by
      rw [Bool.eq_false_iff]
      intro hp
      exact h (List.isPrefixOf_iff_prefix.mp hp).isInfix
    rw [findAux, hb, if_neg (by simp)]
    exact ih (i + 1) (fun hi => h (hi.trans (List.suffix_cons c cs).isInfix))

theorem find_none (needle s : Str) (h : ¬ needle <:+: s) : find s needle 0 = none := by
  unfold find
  rw [if_neg (by simp), List.drop_zero]
  exact findAux_none needle s 0 h

theorem slash_infix_iff (s : Str) : slash <:+: s ↔ '/' ∈ s := by
  unfold slash
  constructor
  · rintro ⟨a, b, rfl⟩
    simp
  · intro hm
    obtain ⟨a, b, rfl⟩ := List.append_of_mem hm
    exact ⟨a, b, by simp⟩

/-! ## Lemmas on `stoul` -/

theorem isdigit_not_isspace (c : Char) (h : isdigit c = true) : isspace c = false := by
  simp only [isdigit, Bool.and_eq_true, decide_eq_true_eq] at h
  simp only [isspace, Bool.or_eq_false_iff, Bool.and_eq_false_iff, decide_eq_false_iff_not]
  omega

theorem stoul_digits (ds : Str) (hne : ds ≠ []) (hd : ∀ c ∈ ds, isdigit c = true)
    (hv : digitsValue ds < 2 ^ 64) : stoul ds = .ok (digitsValue ds) := by
  obtain ⟨c, cs, rfl⟩ := List.exists_cons_of_ne_nil hne
  have hc : isdigit c = true := hd c (by simp)
  have hsp : isspace c = false := isdigit_not_isspace c hc
  have hminus : c ≠ '-' := by
    rintro rfl
    simp [isdigit] at hc
  have hplus : c ≠ '+' := by
    rintro rfl
    simp [isdigit] at hc
  have htake : (c :: cs).takeWhile isdigit = c :: cs := List.takeWhile_eq_self_iff.mpr hd
  have hsign : stripSign (c :: cs) = (false, c :: cs) := by
    unfold stripSign
    split
    · rename_i heq
      simp only [List.cons.injEq] at heq
      exact absurd heq.1 hminus
    · rename_i heq
      simp only [List.cons.injEq] at heq
      exact absurd heq.1 hplus
    · rfl
  unfold stoul
  simp only [List.dropWhile_cons, hsp, Bool.false_eq_true, if_false, hsign, htake]
  simpa using hv

/-! ## Decimal numerals -/

theorem digitsValue_append_singleton (l : Str) (d : Char) :
    digitsValue (l ++ [d]) = 10 * digitsValue l + digitVal d := by
  simp [digitsValue, List.foldl_append]

theorem digitChar_spec (k : Nat) (hk : k < 10) :
    isdigit (Nat.digitChar k) = true ∧ digitVal (Nat.digitChar k) = k := by
  interval_cases k <;> decide

theorem toDigitsCore_spec :
    ∀ (fuel n : Nat) (ds : Str), n < fuel →
      ∃ l, Nat.toDigitsCore 10 fuel n ds = l ++ ds ∧ l ≠ [] ∧
        (∀ c ∈ l, isdigit c = true) ∧ digitsValue l = n := by
  intro fuel
  induction fuel with
  | zero => intro n ds h; omega
  | succ fuel ih =>
    intro n ds hn
    obtain ⟨hd1, hd2⟩ := digitChar_spec (n % 10) (Nat.mod_lt _ (by decide))
    by_cases h0 : n / 10 = 0
    · refine ⟨[Nat.digitChar (n % 10)], by simp [Nat.toDigitsCore, h0], by simp, ?_, ?_⟩
      · intro c hc
        rw [List.mem_singleton] at hc
        rw [hc]
        exact hd1
      · have : digitsValue [Nat.digitChar (n % 10)] = digitVal (Nat.digitChar (n % 10)) := by
          simp [digitsValue]
        rw [this, hd2]
        omega
    · have hlt : n / 10 < fuel := by omega
      obtain ⟨l, h1, -, h3, h4⟩ := ih (n / 10) (Nat.digitChar (n % 10) :: ds) hlt
      refine ⟨l ++ [Nat.digitChar (n % 10)], ?_, by simp, ?_, ?_⟩
      · simp [Nat.toDigitsCore, h0, h1]
      · intro c hc
        rcases List.mem_append.mp hc with hc | hc
        · exact h3 c hc
        · rw [List.mem_singleton] at hc
          rw [hc]
          exact hd1
      · rw [digitsValue_append_singleton, h4, hd2]
        omega

/-- The decimal numeral of `n` is a non-empty string of digits whose value is `n`. -/
theorem toDigits_spec (n : Nat) :
    Nat.toDigits 10 n ≠ [] ∧ (∀ c ∈ Nat.toDigits 10 n, isdigit c = true) ∧
      digitsValue (Nat.toDigits 10 n) = n := by
  obtain ⟨l, h1, h2, h3, h4⟩ := toDigitsCore_spec (n + 1) n [] (Nat.lt_succ_self n)
  rw [List.append_nil] at h1
  unfold Nat.toDigits
  rw [h1]
  exact ⟨h2, h3, h4⟩

/-! ## The node-index resolution -/

theorem isdigit_ne_slash (ds : Str) (hd : ∀ c ∈ ds, isdigit c = true) : '/' ∉ ds := by
  intro hm
  have := hd _ hm
  simp [isdigit] at this

theorem find_slash_after (pre rest post : Str) (h : '/' ∉ rest) :
    find (pre ++ (nodeListMarker ++ (rest ++ (slash ++ post)))) slash (pre.length + 10) =
      some (pre.length + 10 + rest.length) := by
  have hlen : (pre ++ nodeListMarker).length = pre.length + 10 := by simp [nodeListMarker]
  rw [← List.append_assoc, ← hlen, find_at]
  refine findAux_first slash rest post _ (by simp [slash]) ?_
  rw [slash_infix_iff]
  simpa [slash] using h

theorem find_slash_none (pre rest : Str) (h : '/' ∉ rest) :
    find (pre ++ (nodeListMarker ++ rest)) slash (pre.length + 10) = none := by
  have hlen : (pre ++ nodeListMarker).length = pre.length + 10 := by simp [nodeListMarker]
  rw [← List.append_assoc, ← hlen, find_at]
  exact findAux_none slash rest _ (by rwa [slash_infix_iff])

theorem substr_segment (pre rest post : Str) :
    substr (pre ++ (nodeListMarker ++ (rest ++ (slash ++ post)))) (pre.length + 10)
      (pre.length + 10 + rest.length - (pre.length + 10)) = .ok rest := by
  have hlen : (pre ++ nodeListMarker).length = pre.length + 10 := by simp [nodeListMarker]
  unfold substr
  rw [if_neg (by simp [nodeListMarker]), ← List.append_assoc, ← hlen, List.drop_left,
    Nat.add_sub_cancel_left, List.take_left]

theorem nodeIdOfContext_segment (pre rest post : Str)
    (hfirst : ¬ nodeListMarker <:+: pre ++ nodeListMarker.dropLast) (hrest : '/' ∉ rest) :
    nodeIdOfContext (pre ++ (nodeListMarker ++ (rest ++ (slash ++ post)))) =
      match stoul rest with
      | .error e => .error e
      | .ok v => .ok (some (v % 2 ^ 32)) := by
  unfold nodeIdOfContext
  rw [find_first nodeListMarker pre _ (by simp [nodeListMarker]) hfirst]
  simp only
  rw [find_slash_after pre rest post hrest]
  simp only
  rw [substr_segment]

theorem nodeIdOfContext_digits (pre ds post : Str)
    (hfirst : ¬ nodeListMarker <:+: pre ++ nodeListMarker.dropLast)
    (hne : ds ≠ []) (hd : ∀ c ∈ ds, isdigit c = true) (hv : digitsValue ds < 2 ^ 64) :
    nodeIdOfContext (pre ++ (nodeListMarker ++ (ds ++ (slash ++ post)))) =
      .ok (some (digitsValue ds % 2 ^ 32)) := by
  rw [nodeIdOfContext_segment pre ds post hfirst (isdigit_ne_slash ds hd),
    stoul_digits ds hne hd hv]

theorem nodeIdOfContext_no_marker (context : Str) (h : ¬ nodeListMarker <:+: context) :
    nodeIdOfContext context = .ok none := by
  unfold nodeIdOfContext
  rw [find_none nodeListMarker context h]

theorem nodeIdOfContext_no_slash (pre rest : Str)
    (hfirst : ¬ nodeListMarker <:+: pre ++ nodeListMarker.dropLast) (hrest : '/' ∉ rest) :
    nodeIdOfContext (pre ++ (nodeListMarker ++ rest)) = .ok none := by
  unfold nodeIdOfContext
  rw [find_first nodeListMarker pre _ (by simp [nodeListMarker]) hfirst]
  simp only
  rw [find_slash_none pre rest hrest]

/-! ## Lemmas on the guarded write -/

theorem writeRow_open (files : List OfStream) (id : Nat) (r : Row) (f : OfStream)
    (hf : files[id]? = some f) (ho : f.is_open = true) :
    writeRow files id r = .ok (files.set id (f.write r)) := by
  have hlt : id < files.length := (List.getElem?_eq_some_iff.mp hf).1
  unfold writeRow
  rw [if_pos hlt, hf]
  simp [ho]

theorem writeRow_skip (files : List OfStream) (id : Nat) (r : Row)
    (h : files.length ≤ id ∨ ∃ f, files[id]? = some f ∧ f.is_open = false) :
    writeRow files id r = .ok files := by
  unfold writeRow
  rcases h with h | ⟨f, hf, ho⟩
  · rw [if_neg (Nat.not_lt.mpr h)]
  · have hlt : id < files.length := (List.getElem?_eq_some_iff.mp hf).1
    rw [if_pos hlt, hf]
    simp [ho]

theorem writeRow_cases (files : List OfStream) (id : Nat) (r : Row) :
    writeRow files id r = .ok files ∨
      ∃ f, files[id]? = some f ∧ f.is_open = true ∧
        writeRow files id r = .ok (files.set id (f.write r)) := by
  by_cases hlt : id < files.length
  · obtain ⟨f, hf⟩ : ∃ f, files[id]? = some f := ⟨files[id], List.getElem?_eq_getElem hlt⟩
    cases ho : f.is_open
    · exact Or.inl (writeRow_skip files id r (Or.inr ⟨f, hf, ho⟩))
    · exact Or.inr ⟨f, hf, ho, writeRow_open files id r f hf ho⟩
  · exact Or.inl (writeRow_skip files id r (Or.inl (Nat.not_lt.mp hlt)))

theorem rowsAt_set_self (files : List OfStream) (i : Nat) (f : OfStream) (r : Row)
    (hf : files[i]? = some f) :
    rowsAt (files.set i (f.write r)) i = rowsAt files i ++ [r] := by
  have hlt : i < files.length := (List.getElem?_eq_some_iff.mp hf).1
  simp [rowsAt, hf, List.getElem?_set_self hlt, OfStream.write]

theorem rowsAt_set_other (files : List OfStream) (i j : Nat) (g : OfStream) (h : i ≠ j) :
    rowsAt (files.set i g) j = rowsAt files j := by
  simp [rowsAt, List.getElem?_set_ne h]

/-! ## Lemmas on one call of `ThroughputTrace` -/

theorem addBytes_lastTime (s : TraceState) (c : Str) (n : Nat) :
    (addBytes s c n).lastTime = s.lastTime := rfl

theorem addBytes_files (s : TraceState) (c : Str) (n : Nat) :
    (addBytes s c n).g_throughputFiles = s.g_throughputFiles := rfl

theorem ThroughputTrace_open_window (s : TraceState) (c : Str) (n t : Nat)
    (h : ¬ windowCloses (s.lastTime c) t) :
    ThroughputTrace s c n t = ⟨addBytes s c n, none⟩ := by
  unfold ThroughputTrace
  simp only [addBytes_lastTime]
  rw [if_neg h]

theorem ThroughputTrace_dropped (s : TraceState) (c : Str) (n t : Nat)
    (h : windowCloses (s.lastTime c) t) (hr : nodeIdOfContext c = .ok none) :
    ThroughputTrace s c n t = ⟨setLastTime (addBytes s c n) c t, none⟩ := by
  unfold ThroughputTrace
  simp only [addBytes_lastTime]
  rw [if_pos h, hr]

theorem ThroughputTrace_threw (s : TraceState) (c : Str) (n t : Nat) (e : Fault)
    (h : windowCloses (s.lastTime c) t) (hr : nodeIdOfContext c = .error e) :
    ThroughputTrace s c n t = ⟨addBytes s c n, some e⟩ := by
  unfold ThroughputTrace
  simp only [addBytes_lastTime]
  rw [if_pos h, hr]

theorem ThroughputTrace_index (s : TraceState) (c : Str) (n t i : Nat) (files : List OfStream)
    (h : windowCloses (s.lastTime c) t) (hr : nodeIdOfContext c = .ok (some i))
    (hw : writeRow s.g_throughputFiles i
      ⟨t, throughputOf ((addBytes s c n).bytesReceived c) t⟩ = .ok files) :
    ThroughputTrace s c n t =
      ⟨setLastTime { addBytes s c n with g_throughputFiles := files } c t, none⟩ := by
  unfold ThroughputTrace
  simp only [addBytes_lastTime, addBytes_files]
  rw [if_pos h, hr]
  simp only
  rw [hw]

theorem addBytes_self (s : TraceState) (c : Str) (n : Nat) :
    (addBytes s c n).bytesReceived c = (s.bytesReceived c + n) % 2 ^ 64 := by
  simp [addBytes]

theorem addBytes_other (s : TraceState) (c d : Str) (n : Nat) (h : d ≠ c) :
    (addBytes s c n).bytesReceived d = s.bytesReceived d := by
  simp [addBytes, Function.update_noteq h]

theorem ThroughputTrace_emits (s : TraceState) (c : Str) (n t i : Nat) (f : OfStream)
    (h : windowCloses (s.lastTime c) t) (hr : nodeIdOfContext c = .ok (some i))
    (hf : s.g_throughputFiles[i]? = some f) (ho : f.is_open = true) :
    ThroughputTrace s c n t =
      ⟨setLastTime
        { addBytes s c n with
          g_throughputFiles := s.g_throughputFiles.set i
            (f.write ⟨t, throughputOf ((s.bytesReceived c + n) % 2 ^ 64) t⟩) } c t, none⟩ := by
  refine ThroughputTrace_index s c n t i _ h hr ?_
  rw [addBytes_self]
  exact writeRow_open _ _ _ f hf ho

theorem ThroughputTrace_emits_eq (s : TraceState) (c : Str) (n t i : Nat) (f : OfStream)
    (h : windowCloses (s.lastTime c) t) (hr : nodeIdOfContext c = .ok (some i))
    (hf : s.g_throughputFiles[i]? = some f) (ho : f.is_open = true) :
    ∃ s2, ThroughputTrace s c n t = ⟨s2, none⟩ ∧
      s2.lastTime = Function.update s.lastTime c t ∧
      s2.bytesReceived = (addBytes s c n).bytesReceived ∧
      s2.g_throughputFiles = s.g_throughputFiles.set i
        (f.write ⟨t, throughputOf ((s.bytesReceived c + n) % 2 ^ 64) t⟩) :=
  ⟨_, ThroughputTrace_emits s c n t i f h hr hf ho, rfl, rfl, rfl⟩

theorem ThroughputTrace_files (s : TraceState) (c : Str) (n t : Nat) :
    (ThroughputTrace s c n t).state.g_throughputFiles = s.g_throughputFiles ∨
      (windowCloses (s.lastTime c) t ∧ (ThroughputTrace s c n t).fault = none ∧
        ∃ i f, nodeIdOfContext c = .ok (some i) ∧ s.g_throughputFiles[i]? = some f ∧
          f.is_open = true ∧
          (ThroughputTrace s c n t).state.g_throughputFiles =
            s.g_throughputFiles.set i
              (f.write ⟨t, throughputOf ((s.bytesReceived c + n) % 2 ^ 64) t⟩)) := by
  by_cases h : windowCloses (s.lastTime c) t
  · cases hr : nodeIdOfContext c with
    | error e => rw [ThroughputTrace_threw s c n t e h hr]; exact Or.inl rfl
    | ok r =>
      cases r with
      | none => rw [ThroughputTrace_dropped s c n t h hr]; exact Or.inl rfl
      | some i =>
        rcases writeRow_cases s.g_throughputFiles i
            ⟨t, throughputOf ((addBytes s c n).bytesReceived c) t⟩ with hw | ⟨f, hf, ho, -⟩
        · rw [ThroughputTrace_index s c n t i _ h hr hw]; exact Or.inl rfl
        · rw [ThroughputTrace_emits s c n t i f h hr hf ho]
          exact Or.inr ⟨h, rfl, i, f, rfl, hf, ho, rfl⟩
  · rw [ThroughputTrace_open_window s c n t h]; exact Or.inl rfl

theorem windowCloses_zero (last : Nat) : windowCloses last 0 ↔ last = 0 := by
  unfold windowCloses
  omega

theorem throughputOf_zero (bytes : Nat) :
    throughputOf bytes 0 = .inf ∨ throughputOf bytes 0 = .nan := by
  unfold throughputOf
  by_cases hb : bytes = 0 <;> simp [hb]

/-! ## Lemmas on a run of deliveries -/

theorem runTrace_cons_ok (s s1 : TraceState) (e : Event) (es : List Event)
    (h : ThroughputTrace s e.context e.size e.now = ⟨s1, none⟩) :
    runTrace s (e :: es) = runTrace s1 es := by
  simp [runTrace, h]

theorem runTrace_cons_fault (s s1 : TraceState) (e : Event) (es : List Event) (x : Fault)
    (h : ThroughputTrace s e.context e.size e.now = ⟨s1, some x⟩) :
    runTrace s (e :: es) = ⟨s1, some x⟩ := by
  simp [runTrace, h]

theorem runTrace_spaced (c : Str) (i : Nat) (hr : nodeIdOfContext c = .ok (some i)) :
    ∀ (evs : List Event) (s : TraceState) (f : OfStream),
      s.g_throughputFiles[i]? = some f → f.is_open = true →
      (∀ e ∈ evs, e.context = c ∧ 0 < e.now ∧ s.lastTime c ≤ e.now) →
      evs.Pairwise (fun a b => a.now ≤ b.now) →
      ∃ new g, (runTrace s evs).fault = none ∧
        (runTrace s evs).state.g_throughputFiles[i]? = some g ∧ g.is_open = true ∧
        g.rows = f.rows ++ new ∧ new.Pairwise Spaced ∧
        ∀ r ∈ new, s.lastTime c = 0 ∨ s.lastTime c + 100000000 ≤ r.time := by
  intro evs
  induction evs with
  | nil =>
    intro s f hf ho _ _
    exact ⟨[], f, rfl, hf, ho, by simp, List.Pairwise.nil, by simp⟩
  | cons e es ih =>
    intro s f hf ho hev hsort
    obtain ⟨hctx, hpos, hle⟩ := hev e (by simp)
    have hsort2 := List.pairwise_cons.mp hsort
    by_cases hw : windowCloses (s.lastTime c) e.now
    · -- the window closes: one row is written and the last time becomes `e.now`
      obtain ⟨s2, hstep, hL, -, hF⟩ := ThroughputTrace_emits_eq s c e.size e.now i f hw hr hf ho
      rw [← hctx] at hstep
      rw [runTrace_cons_ok s s2 e es hstep]
      have hlt : i < s.g_throughputFiles.length := (List.getElem?_eq_some_iff.mp hf).1
      have hlast : s2.lastTime c = e.now := by simp [hL]
      obtain ⟨new, g, h1, h2, h3, h4, h5, h6⟩ := ih s2
        (f.write ⟨e.now, throughputOf ((s.bytesReceived c + e.size) % 2 ^ 64) e.now⟩)
        (by rw [hF, List.getElem?_set_self hlt]) (by simpa [OfStream.write] using ho)
        (by
          intro e2 he2
          obtain ⟨hc2, hp2, -⟩ := hev e2 (by simp [he2])
          refine ⟨hc2, hp2, ?_⟩
          rw [hlast]
          exact hsort2.1 e2 he2)
        hsort2.2
      rw [hlast] at h6
      refine ⟨⟨e.now, throughputOf ((s.bytesReceived c + e.size) % 2 ^ 64) e.now⟩ :: new,
        g, h1, h2, h3, ?_, ?_, ?_⟩
      · rw [h4]
        simp [OfStream.write]
      · refine List.pairwise_cons.mpr ⟨?_, h5⟩
        intro r hrm
        have := h6 r hrm
        unfold Spaced
        simp only
        omega
      · intro r hrm
        rcases List.mem_cons.mp hrm with rfl | hrm
        · unfold windowCloses at hw
          simp only
          omega
        · have := h6 r hrm
          omega
    · -- the window stays open: nothing is written and the last time is kept
      have hstep := ThroughputTrace_open_window s c e.size e.now hw
      rw [← hctx] at hstep
      rw [runTrace_cons_ok s _ e es hstep]
      obtain ⟨new, g, h1, h2, h3, h4, h5, h6⟩ := ih (addBytes s e.context e.size) f hf ho
        (by
          intro e2 he2
          exact hev e2 (by simp [he2]))
        hsort2.2
      exact ⟨new, g, h1, h2, h3, h4, h5, h6⟩

theorem ThroughputTrace_bytesReceived (s : TraceState) (c : Str) (n t : Nat) :
    (ThroughputTrace s c n t).state.bytesReceived = (addBytes s c n).bytesReceived := by
  by_cases h : windowCloses (s.lastTime c) t
  · cases hr : nodeIdOfContext c with
    | error e => rw [ThroughputTrace_threw s c n t e h hr]
    | ok r =>
      cases r with
      | none => rw [ThroughputTrace_dropped s c n t h hr]; rfl
      | some i =>
        rcases writeRow_cases s.g_throughputFiles i
            ⟨t, throughputOf ((addBytes s c n).bytesReceived c) t⟩ with hw | ⟨f, hf, ho, -⟩
        · rw [ThroughputTrace_index s c n t i _ h hr hw]; rfl
        · rw [ThroughputTrace_emits s c n t i f h hr hf ho]; rfl
  · rw [ThroughputTrace_open_window s c n t h]

theorem ThroughputTrace_rows (s : TraceState) (c : Str) (n t i : Nat) :
    ∃ new, rowsAt (ThroughputTrace s c n t).state.g_throughputFiles i =
        rowsAt s.g_throughputFiles i ++ new ∧
      (new = [] ∨ (windowCloses (s.lastTime c) t ∧
        new = [⟨t, throughputOf ((s.bytesReceived c + n) % 2 ^ 64) t⟩])) := by
  rcases ThroughputTrace_files s c n t with h | ⟨hc, -, j, f, -, hf, -, h⟩
  · exact ⟨[], by rw [h, List.append_nil], Or.inl rfl⟩
  · by_cases hij : j = i
    · subst hij
      exact ⟨_, by rw [h, rowsAt_set_self _ _ _ _ hf], Or.inr ⟨hc, rfl⟩⟩
    · exact ⟨[], by rw [h, rowsAt_set_other _ _ _ _ hij, List.append_nil], Or.inl rfl⟩

theorem totalBytes_append (c : Str) (evs : List Event) (e : Event) :
    totalBytes c (evs ++ [e]) = totalBytes c evs + (if e.context = c then e.size else 0) := by
  induction evs with
  | nil => simp [totalBytes]
  | cons a as ih => simp [totalBytes, ih, Nat.add_assoc]

theorem runTrace_bytes (c : Str) :
    ∀ (evs : List Event) (s : TraceState), (runTrace s evs).fault = none →
      (runTrace s evs).state.bytesReceived c % 2 ^ 64 =
        (s.bytesReceived c + totalBytes c evs) % 2 ^ 64 := by
  intro evs
  induction evs with
  | nil => intro s _; simp [runTrace, totalBytes]
  | cons e es ih =>
    intro s hrun
    have hb := ThroughputTrace_bytesReceived s e.context e.size e.now
    cases hstep : ThroughputTrace s e.context e.size e.now with
    | mk s1 x =>
      cases x with
      | some x =>
        rw [runTrace_cons_fault s s1 e es x hstep] at hrun
        cases hrun
      | none =>
        rw [runTrace_cons_ok s s1 e es hstep] at hrun ⊢
        rw [ih s1 hrun]
        rw [hstep] at hb
        simp only at hb
        rw [hb]
        by_cases hc : e.context = c
        · subst hc
          rw [addBytes_self]
          simp only [totalBytes, if_true]
          omega
        · rw [addBytes_other s e.context c e.size (Ne.symm hc)]
          simp only [totalBytes, if_neg hc, Nat.zero_add]

theorem throughputOf_pos (bytes now : Nat) (h : 0 < now) :
    throughputOf bytes now = .fin (((bytes : ℚ) * 8) / (seconds now * 1000000)) := by
  unfold throughputOf
  rw [if_neg (Nat.pos_iff_ne_zero.mp h)]

theorem runTrace_rows_sublist (i : Nat) :
    ∀ (evs : List Event) (s : TraceState),
      ∃ new, rowsAt (runTrace s evs).state.g_throughputFiles i =
          rowsAt s.g_throughputFiles i ++ new ∧
        (new.map Row.time).Sublist (evs.map Event.now) := by
  intro evs
  induction evs with
  | nil => intro s; exact ⟨[], by simp [runTrace], by simp⟩
  | cons e es ih =>
    intro s
    obtain ⟨new1, h1, hn1⟩ := ThroughputTrace_rows s e.context e.size e.now i
    have hsub1 : (new1.map Row.time).Sublist [e.now] := by
      rcases hn1 with rfl | ⟨-, rfl⟩
      · simp
      · simp
    cases hstep : ThroughputTrace s e.context e.size e.now with
    | mk s1 x =>
      rw [hstep] at h1
      simp only at h1
      cases x with
      | some x =>
        rw [runTrace_cons_fault s s1 e es x hstep]
        refine ⟨new1, h1, ?_⟩
        exact hsub1.trans (by simp)
      | none =>
        rw [runTrace_cons_ok s s1 e es hstep]
        obtain ⟨new2, h2, hn2⟩ := ih s1
        refine ⟨new1 ++ new2, by rw [h2, h1, List.append_assoc], ?_⟩
        rw [List.map_append, List.map_cons]
        exact List.Sublist.append hsub1 hn2

/-! ## C1: the resolved node index -/

/-- C1, as stated, fails on the code: the node index is a `uint32_t`, so the
context `/NodeList/4294967303/Rx`, whose embedded integer is `2^32 + 7`, resolves
to `7`. -/
theorem nodeIdOfContext_wraps_large_index :
    digitsValue "4294967303".toList = 4294967303 ∧
      nodeIdOfContext "/NodeList/4294967303/Rx".toList = .ok (some 7) := by
  decide

/-- C1, amended: when the first occurrence of `/NodeList/` in the context is
followed by a non-empty string of decimal digits whose value `n` is below `2^32`
and then by `/`, the resolution yields exactly `n`, whatever stands before the
marker and after the delimiter; in particular so for the decimal numeral of every
`n < 2^32`. -/
theorem nodeIdOfContext_exact (pre ds post : Str)
    (hfirst : ¬ nodeListMarker <:+: pre ++ nodeListMarker.dropLast)
    (hne : ds ≠ []) (hd : ∀ c ∈ ds, isdigit c = true) (hv : digitsValue ds < 2 ^ 32) :
    nodeIdOfContext (pre ++ nodeListMarker ++ ds ++ slash ++ post) =
        .ok (some (digitsValue ds)) ∧
      ∀ n, n < 2 ^ 32 →
        nodeIdOfContext (pre ++ nodeListMarker ++ Nat.toDigits 10 n ++ slash ++ post) =
          .ok (some n) := by
  have key : ∀ l : Str, l ≠ [] → (∀ c ∈ l, isdigit c = true) → digitsValue l < 2 ^ 32 →
      nodeIdOfContext (pre ++ nodeListMarker ++ l ++ slash ++ post) =
        .ok (some (digitsValue l)) := by
    intro l hl1 hl2 hl3
    have h64 : digitsValue l < 2 ^ 64 := by omega
    have h := nodeIdOfContext_digits pre l post hfirst hl1 hl2 h64
    rw [Nat.mod_eq_of_lt hl3] at h
    simpa only [List.append_assoc] using h
  refine ⟨key ds hne hd hv, ?_⟩
  intro n hn
  obtain ⟨h1, h2, h3⟩ := toDigits_spec n
  have h := key (Nat.toDigits 10 n) h1 h2 (by rw [h3]; exact hn)
  rw [h3] at h
  exact h

/-- The witness of the specification for C1: `/Prefix/NodeList/7/AppList/0/Rx`
resolves to node 7. -/
theorem nodeIdOfContext_exact_witness :
    "/Prefix".toList ++ nodeListMarker ++ "7".toList ++ slash ++ "AppList/0/Rx".toList =
        "/Prefix/NodeList/7/AppList/0/Rx".toList ∧
      nodeIdOfContext
        ("/Prefix".toList ++ nodeListMarker ++ "7".toList ++ slash ++ "AppList/0/Rx".toList) =
        .ok (some 7) :=
  ⟨by decide,
    (nodeIdOfContext_exact "/Prefix".toList "7".toList "AppList/0/Rx".toList
      (by decide) (by decide) (by decide) (by decide)).1⟩

/-! ## C2: a delivery at time 0 -/

/-- C2, as stated, fails on the code: the division is not guarded.  On fresh
statics, a delivery of 1024 bytes at time 0 with context `/NodeList/0/Rx` appends
the row `(0, inf)` to the open file of node 0, and a delivery of 0 bytes appends
`(0, nan)`. -/
theorem ThroughputTrace_writes_at_time_zero :
    (ThroughputTrace (freshState [⟨true, []⟩]) "/NodeList/0/Rx".toList 1024 0
        ).state.g_throughputFiles = [⟨true, [⟨0, .inf⟩]⟩] ∧
      (ThroughputTrace (freshState [⟨true, []⟩]) "/NodeList/0/Rx".toList 0 0
        ).state.g_throughputFiles = [⟨true, [⟨0, .nan⟩]⟩] := by
  decide

/-- C2, amended: a delivery handled at time 0 appends no row unless the stored
last time of its context is 0 and the context resolves to a node within bounds
whose file is open; in that case it appends exactly one row to that file, with
time 0 and a value that is not finite. -/
theorem ThroughputTrace_at_time_zero (s : TraceState) (context : Str) (packetSize : Nat) :
    (¬ (s.lastTime context = 0 ∧ ∃ i f, nodeIdOfContext context = .ok (some i) ∧
          s.g_throughputFiles[i]? = some f ∧ f.is_open = true) →
        (ThroughputTrace s context packetSize 0).state.g_throughputFiles =
          s.g_throughputFiles) ∧
      (∀ i f, s.lastTime context = 0 → nodeIdOfContext context = .ok (some i) →
        s.g_throughputFiles[i]? = some f → f.is_open = true →
        ∃ v, (v = .inf ∨ v = .nan) ∧
          (ThroughputTrace s context packetSize 0).state.g_throughputFiles =
            s.g_throughputFiles.set i (f.write ⟨0, v⟩)) := by
  constructor
  · intro hno
    rcases ThroughputTrace_files s context packetSize 0 with h | ⟨hc, -, i, f, hr, hf, ho, -⟩
    · exact h
    · exact absurd ⟨(windowCloses_zero _).mp hc, i, f, hr, hf, ho⟩ hno
  · intro i f hl hr hf ho
    refine ⟨throughputOf ((s.bytesReceived context + packetSize) % 2 ^ 64) 0,
      throughputOf_zero _, ?_⟩
    rw [ThroughputTrace_emits s context packetSize 0 i f ((windowCloses_zero _).mpr hl) hr hf ho]
    rfl

/-- A witness for C2 amended: on fresh statics the context `/NodeList/0/Rx` meets
the conditions of the second part for the open file of node 0, and the context
`/Nodes/0/Rx` meets the condition of the first part. -/
theorem ThroughputTrace_at_time_zero_witness :
    (ThroughputTrace (freshState [⟨true, []⟩]) "/Nodes/0/Rx".toList 1024 0
        ).state.g_throughputFiles = (freshState [⟨true, []⟩]).g_throughputFiles ∧
      ∃ v, (v = Value.inf ∨ v = Value.nan) ∧
        (ThroughputTrace (freshState [⟨true, []⟩]) "/NodeList/0/Rx".toList 1024 0
          ).state.g_throughputFiles =
          (freshState [⟨true, []⟩]).g_throughputFiles.set 0 (OfStream.write ⟨true, []⟩ ⟨0, v⟩) :=
  ⟨(ThroughputTrace_at_time_zero (freshState [⟨true, []⟩]) "/Nodes/0/Rx".toList 1024).1
      (by
        rintro ⟨-, i, f, hr, -⟩
        rw [show nodeIdOfContext "/Nodes/0/Rx".toList = .ok none from by decide] at hr
        cases hr),
    (ThroughputTrace_at_time_zero (freshState [⟨true, []⟩]) "/NodeList/0/Rx".toList 1024).2
      0 ⟨true, []⟩ rfl (by decide) rfl rfl⟩

/-! ## C3: one row per window -/

/-- C3, as stated, fails on the code.  On fresh statics, with the open file of
node 0, the two deliveries at 0.05 s and 0.12 s of the context `/NodeList/0/Rx`
leave exactly one row, and its time is 0.05 s, not 0.12 s: the first delivery of
a context always closes the window.  And the deliveries at 0 s and 0.05 s leave
two rows that are 0.05 s apart: a flush at time 0 stores the time 0, which reads
as "never flushed". -/
theorem runTrace_first_delivery_emits :
    (rowsAt (runTrace (freshState [⟨true, []⟩])
        [⟨"/NodeList/0/Rx".toList, 1024, 50000000⟩,
         ⟨"/NodeList/0/Rx".toList, 1024, 120000000⟩]).state.g_throughputFiles 0).map Row.time =
        [50000000] ∧
      (rowsAt (runTrace (freshState [⟨true, []⟩])
        [⟨"/NodeList/0/Rx".toList, 1024, 0⟩,
         ⟨"/NodeList/0/Rx".toList, 1024, 50000000⟩]).state.g_throughputFiles 0).map Row.time =
        [0, 50000000] := by
  decide

/-- C3, amended: for deliveries of one context, none of them at time 0, handled
in non-decreasing time order from fresh statics, where the context resolves to a
node whose file is open, the run ends without a fault and any two rows it appends
to that file are at least 0.1 s apart; and for the two deliveries at 0.05 s and
0.12 s exactly one row is appended, the one of the delivery at 0.05 s. -/
theorem runTrace_rows_spaced (c : Str) (i : Nat) (files : List OfStream) (f : OfStream)
    (evs : List Event) (b1 b2 : Nat)
    (hr : nodeIdOfContext c = .ok (some i)) (hf : files[i]? = some f) (ho : f.is_open = true)
    (hctx : ∀ e ∈ evs, e.context = c) (hpos : ∀ e ∈ evs, 0 < e.now)
    (hsort : evs.Pairwise (fun a b => a.now ≤ b.now)) :
    ((runTrace (freshState files) evs).fault = none ∧
      ∃ new, rowsAt (runTrace (freshState files) evs).state.g_throughputFiles i =
          rowsAt files i ++ new ∧ new.Pairwise Spaced) ∧
      rowsAt (runTrace (freshState files)
          [⟨c, b1, 50000000⟩, ⟨c, b2, 120000000⟩]).state.g_throughputFiles i =
        rowsAt files i ++ [⟨50000000, throughputOf (b1 % 2 ^ 64) 50000000⟩] := by
  have hlt : i < files.length := (List.getElem?_eq_some_iff.mp hf).1
  constructor
  · obtain ⟨new, g, h1, h2, -, h4, h5, -⟩ := runTrace_spaced c i hr evs (freshState files) f hf ho
      (fun e he => ⟨hctx e he, hpos e he, Nat.zero_le _⟩) hsort
    refine ⟨h1, new, ?_, h5⟩
    unfold rowsAt
    rw [h2, hf]
    exact h4
  · obtain ⟨s2, hstep, hL, -, hF⟩ := ThroughputTrace_emits_eq (freshState files) c b1 50000000 i f
      (Or.inl rfl) hr hf ho
    have hlast : s2.lastTime c = 50000000 := by simp [hL]
    have hopen : ¬ windowCloses (s2.lastTime c) 120000000 := by
      rw [hlast]
      unfold windowCloses
      omega
    rw [runTrace_cons_ok _ s2 ⟨c, b1, 50000000⟩ _ hstep,
      runTrace_cons_ok _ _ ⟨c, b2, 120000000⟩ _ (ThroughputTrace_open_window s2 c b2 120000000 hopen)]
    show rowsAt s2.g_throughputFiles i = _
    rw [hF]
    have h0 : (freshState files).g_throughputFiles = files := rfl
    have hb : (freshState files).bytesReceived c = 0 := rfl
    rw [h0, hb, Nat.zero_add, rowsAt_set_self files i f _ hf]

/-- A witness for C3 amended: two deliveries of `/NodeList/0/Rx`, at 0.05 s and
0.2 s, to the open file of node 0. -/
theorem runTrace_rows_spaced_witness :
    ((runTrace (freshState [⟨true, []⟩])
          [⟨"/NodeList/0/Rx".toList, 1024, 50000000⟩,
           ⟨"/NodeList/0/Rx".toList, 1024, 200000000⟩]).fault = none ∧
      ∃ new, rowsAt (runTrace (freshState [⟨true, []⟩])
          [⟨"/NodeList/0/Rx".toList, 1024, 50000000⟩,
           ⟨"/NodeList/0/Rx".toList, 1024, 200000000⟩]).state.g_throughputFiles 0 =
          rowsAt [⟨true, []⟩] 0 ++ new ∧ new.Pairwise Spaced) ∧
      rowsAt (runTrace (freshState [⟨true, []⟩])
          [⟨"/NodeList/0/Rx".toList, 1024, 50000000⟩,
           ⟨"/NodeList/0/Rx".toList, 1024, 120000000⟩]).state.g_throughputFiles 0 =
        rowsAt [⟨true, []⟩] 0 ++ [⟨50000000, throughputOf (1024 % 2 ^ 64) 50000000⟩] :=
  runTrace_rows_spaced "/NodeList/0/Rx".toList 0 [⟨true, []⟩] ⟨true, []⟩
    [⟨"/NodeList/0/Rx".toList, 1024, 50000000⟩, ⟨"/NodeList/0/Rx".toList, 1024, 200000000⟩]
    1024 1024 (by decide) rfl rfl (by decide) (by decide) (by decide)

/-! ## C4: the value of an emitted row -/

/-- C4: after any deliveries handled from fresh statics, every row that a
further delivery of context `c` at a time `t > 0` appends has the value
`(B * 8) / (t * 1000000)`, `t` in seconds, where `B` is the sum of the byte counts
of all deliveries of `c` so far, the current one included, as long as `B` fits the
64-bit counter; and the counter of `c` holds `B` after the call. -/
theorem ThroughputTrace_row_value (files : List OfStream) (evs : List Event) (c : Str)
    (n t : Nat) (hrun : (runTrace (freshState files) evs).fault = none) (ht : 0 < t)
    (hB : totalBytes c (evs ++ [⟨c, n, t⟩]) < 2 ^ 64) :
    (ThroughputTrace (runTrace (freshState files) evs).state c n t).state.bytesReceived c =
        totalBytes c (evs ++ [⟨c, n, t⟩]) ∧
      ∀ i, ∃ new,
        rowsAt (ThroughputTrace (runTrace (freshState files) evs).state c n t
            ).state.g_throughputFiles i =
          rowsAt (runTrace (freshState files) evs).state.g_throughputFiles i ++ new ∧
        ∀ r ∈ new, r = ⟨t, .fin (((totalBytes c (evs ++ [⟨c, n, t⟩]) : ℚ) * 8) /
          (seconds t * 1000000))⟩ := by
  have hsum : ((runTrace (freshState files) evs).state.bytesReceived c + n) % 2 ^ 64 =
      totalBytes c (evs ++ [⟨c, n, t⟩]) := by
    have h := runTrace_bytes c evs (freshState files) hrun
    have h0 : (freshState files).bytesReceived c = 0 := rfl
    rw [h0, Nat.zero_add] at h
    rw [totalBytes_append, if_pos rfl] at hB ⊢
    simp only at hB ⊢
    omega
  constructor
  · rw [ThroughputTrace_bytesReceived, addBytes_self, hsum]
  · intro i
    obtain ⟨new, h1, hn⟩ := ThroughputTrace_rows (runTrace (freshState files) evs).state c n t i
    refine ⟨new, h1, ?_⟩
    intro r hr
    rcases hn with rfl | ⟨-, rfl⟩
    · simp at hr
    · rw [List.mem_singleton] at hr
      rw [hr, hsum, throughputOf_pos _ _ ht]

/-- A witness for C4: after one delivery of 1024 bytes at 0.05 s, a delivery of
1024 bytes of the same context at 0.2 s. -/
theorem ThroughputTrace_row_value_witness :
    (ThroughputTrace (runTrace (freshState [⟨true, []⟩])
          [⟨"/NodeList/0/Rx".toList, 1024, 50000000⟩]).state
        "/NodeList/0/Rx".toList 1024 200000000).state.bytesReceived "/NodeList/0/Rx".toList =
        totalBytes "/NodeList/0/Rx".toList
          ([⟨"/NodeList/0/Rx".toList, 1024, 50000000⟩] ++
            [⟨"/NodeList/0/Rx".toList, 1024, 200000000⟩]) ∧
      ∀ i, ∃ new,
        rowsAt (ThroughputTrace (runTrace (freshState [⟨true, []⟩])
              [⟨"/NodeList/0/Rx".toList, 1024, 50000000⟩]).state
            "/NodeList/0/Rx".toList 1024 200000000).state.g_throughputFiles i =
          rowsAt (runTrace (freshState [⟨true, []⟩])
              [⟨"/NodeList/0/Rx".toList, 1024, 50000000⟩]).state.g_throughputFiles i ++ new ∧
        ∀ r ∈ new, r = ⟨200000000, .fin (((totalBytes "/NodeList/0/Rx".toList
            ([⟨"/NodeList/0/Rx".toList, 1024, 50000000⟩] ++
              [⟨"/NodeList/0/Rx".toList, 1024, 200000000⟩]) : ℚ) * 8) /
          (seconds 200000000 * 1000000))⟩ :=
  ThroughputTrace_row_value [⟨true, []⟩] [⟨"/NodeList/0/Rx".toList, 1024, 50000000⟩]
    "/NodeList/0/Rx".toList 1024 200000000 (by decide) (by decide) (by decide)

/-! ## C9: the order of the rows of a file -/

/-- C9: for deliveries handled in non-decreasing time order, from any state and
with any mix of contexts, the rows appended to the file of each node have
non-decreasing times, in the order in which they were written. -/
theorem runTrace_rows_sorted (s : TraceState) (evs : List Event) (i : Nat)
    (hsort : evs.Pairwise (fun a b => a.now ≤ b.now)) :
    ∃ new, rowsAt (runTrace s evs).state.g_throughputFiles i =
        rowsAt s.g_throughputFiles i ++ new ∧
      new.Pairwise (fun a b => a.time ≤ b.time) := by
  obtain ⟨new, h1, hsub⟩ := runTrace_rows_sublist i evs s
  refine ⟨new, h1, ?_⟩
  have h2 : (evs.map Event.now).Pairwise (· ≤ ·) := List.pairwise_map.mpr hsort
  exact List.pairwise_map.mp (h2.sublist hsub)

/-- A witness for C9: deliveries of two contexts of node 0, two of them at the
same time. -/
theorem runTrace_rows_sorted_witness :
    ∃ new, rowsAt (runTrace (freshState [⟨true, []⟩])
          [⟨"/NodeList/0/A/Rx".toList, 100, 50000000⟩,
           ⟨"/NodeList/0/B/Rx".toList, 200, 50000000⟩,
           ⟨"/NodeList/0/A/Rx".toList, 100, 200000000⟩]).state.g_throughputFiles 0 =
        rowsAt (freshState [⟨true, []⟩]).g_throughputFiles 0 ++ new ∧
      new.Pairwise (fun a b => a.time ≤ b.time) :=
  runTrace_rows_sorted (freshState [⟨true, []⟩])
    [⟨"/NodeList/0/A/Rx".toList, 100, 50000000⟩,
     ⟨"/NodeList/0/B/Rx".toList, 200, 50000000⟩,
     ⟨"/NodeList/0/A/Rx".toList, 100, 200000000⟩] 0 (by decide)

/-! ## C5: malformed contexts -/

/-- C5: when the context does not contain `/NodeList/`, or when no `/` stands
after the first `/NodeList/` of the context, the resolution ends at one of the
two `npos` tests without a fault, and the call of `ThroughputTrace` ends without
a fault and leaves every throughput file as it was, for every byte count, time
and prior state. -/
theorem ThroughputTrace_malformed_context (context : Str)
    (h : ¬ nodeListMarker <:+: context ∨
      ∃ pre rest, context = pre ++ nodeListMarker ++ rest ∧
        ¬ nodeListMarker <:+: pre ++ nodeListMarker.dropLast ∧ '/' ∉ rest)
    (s : TraceState) (packetSize now : Nat) :
    nodeIdOfContext context = .ok none ∧
      (ThroughputTrace s context packetSize now).fault = none ∧
      (ThroughputTrace s context packetSize now).state.g_throughputFiles =
        s.g_throughputFiles := by
  have hr : nodeIdOfContext context = .ok none := by
    rcases h with h | ⟨pre, rest, rfl, hfirst, hrest⟩
    · exact nodeIdOfContext_no_marker context h
    · rw [List.append_assoc]
      exact nodeIdOfContext_no_slash pre rest hfirst hrest
  refine ⟨hr, ?_⟩
  by_cases hw : windowCloses (s.lastTime context) now
  · rw [ThroughputTrace_dropped s context packetSize now hw hr]
    exact ⟨rfl, rfl⟩
  · rw [ThroughputTrace_open_window s context packetSize now hw]
    exact ⟨rfl, rfl⟩

/-- A witness for C5: the context `/NodeList/12` has no `/` after the marker. -/
theorem ThroughputTrace_malformed_context_witness :
    nodeIdOfContext "/NodeList/12".toList = .ok none ∧
      (ThroughputTrace (freshState [⟨true, []⟩]) "/NodeList/12".toList 1024 50000000).fault =
        none ∧
      (ThroughputTrace (freshState [⟨true, []⟩]) "/NodeList/12".toList 1024 50000000
        ).state.g_throughputFiles = (freshState [⟨true, []⟩]).g_throughputFiles :=
  ThroughputTrace_malformed_context "/NodeList/12".toList
    (Or.inr ⟨[], "12".toList, by decide, by decide, by decide⟩)
    (freshState [⟨true, []⟩]) 1024 50000000

/-! ## C7 and C8: `PathLossTraceSink` -/

/-- C7: when the receiving node index is equal to or greater than the number of
path-loss files, or the file of that node is not open, `PathLossTraceSink` of
either scenario ends without a fault and leaves every file as it was. -/
theorem PathLossTraceSink_skips (g_rssiFiles : List OfStream) (rxNodeId now : Nat) (lossDb : ℚ)
    (h : g_rssiFiles.length ≤ rxNodeId ∨
      ∃ f, g_rssiFiles[rxNodeId]? = some f ∧ f.is_open = false) :
    Jam.PathLossTraceSink g_rssiFiles rxNodeId now lossDb = .ok g_rssiFiles ∧
      NoJam.PathLossTraceSink g_rssiFiles rxNodeId now lossDb = .ok g_rssiFiles :=
  ⟨writeRow_skip g_rssiFiles rxNodeId _ h, writeRow_skip g_rssiFiles rxNodeId _ h⟩

/-- A witness for C7: two open files and the node index 2, the size of the
collection. -/
theorem PathLossTraceSink_skips_witness :
    Jam.PathLossTraceSink [⟨true, []⟩, ⟨true, []⟩] 2 50000000 80 =
        .ok [⟨true, []⟩, ⟨true, []⟩] ∧
      NoJam.PathLossTraceSink [⟨true, []⟩, ⟨true, []⟩] 2 50000000 80 =
        .ok [⟨true, []⟩, ⟨true, []⟩] :=
  PathLossTraceSink_skips [⟨true, []⟩, ⟨true, []⟩] 2 50000000 80 (Or.inl (by decide))

/-- C8, as stated, fails on `simu71_irs_jam.cc`: for the loss 80 dB at 0.05 s the
row appended to the open file of node 0 is `(0.05, -70)`, not `(0.05, 80)`. -/
theorem PathLossTraceSink_jam_row :
    Jam.PathLossTraceSink [⟨true, []⟩] 0 50000000 80 =
        .ok [⟨true, [⟨50000000, .fin (10 - 80)⟩]⟩] ∧
      Value.fin (10 - 80) = Value.fin (-70) ∧ Value.fin (10 - 80) ≠ Value.fin 80 := by
  refine ⟨rfl, ?_, ?_⟩
  · norm_num
  · intro h
    injection h with h
    norm_num at h

/-- C8, amended: when the receiving node index is within the bounds of the
collection and the file of that node is open, `PathLossTraceSink` ends without a
fault, appends exactly one row to that file and changes no other file; the row is
`(currentTime, lossDb)` in `NoJam_simulation.cc.cc` and `(currentTime, 10 - lossDb)`
in `simu71_irs_jam.cc`. -/
theorem PathLossTraceSink_appends (g_rssiFiles : List OfStream) (rxNodeId now : Nat)
    (lossDb : ℚ) (f : OfStream) (hf : g_rssiFiles[rxNodeId]? = some f)
    (ho : f.is_open = true) :
    (∃ files, NoJam.PathLossTraceSink g_rssiFiles rxNodeId now lossDb = .ok files ∧
        rowsAt files rxNodeId = rowsAt g_rssiFiles rxNodeId ++ [⟨now, .fin lossDb⟩] ∧
        files.length = g_rssiFiles.length ∧
        ∀ j, j ≠ rxNodeId → files[j]? = g_rssiFiles[j]?) ∧
      ∃ files, Jam.PathLossTraceSink g_rssiFiles rxNodeId now lossDb = .ok files ∧
        rowsAt files rxNodeId = rowsAt g_rssiFiles rxNodeId ++ [⟨now, .fin (10 - lossDb)⟩] ∧
        files.length = g_rssiFiles.length ∧
        ∀ j, j ≠ rxNodeId → files[j]? = g_rssiFiles[j]? := by
  constructor
  · exact ⟨_, writeRow_open g_rssiFiles rxNodeId _ f hf ho, rowsAt_set_self _ _ _ _ hf,
      List.length_set .., fun j hj => List.getElem?_set_ne (Ne.symm hj)⟩
  · exact ⟨_, writeRow_open g_rssiFiles rxNodeId _ f hf ho, rowsAt_set_self _ _ _ _ hf,
      List.length_set .., fun j hj => List.getElem?_set_ne (Ne.symm hj)⟩

/-- A witness for C8 amended: two open files and the node index 1. -/
theorem PathLossTraceSink_appends_witness :
    (∃ files, NoJam.PathLossTraceSink [⟨true, []⟩, ⟨true, []⟩] 1 50000000 80 = .ok files ∧
        rowsAt files 1 = rowsAt [⟨true, []⟩, ⟨true, []⟩] 1 ++ [⟨50000000, .fin 80⟩] ∧
        files.length = [(⟨true, []⟩ : OfStream), ⟨true, []⟩].length ∧
        ∀ j, j ≠ 1 → files[j]? = [(⟨true, []⟩ : OfStream), ⟨true, []⟩][j]?) ∧
      ∃ files, Jam.PathLossTraceSink [⟨true, []⟩, ⟨true, []⟩] 1 50000000 80 = .ok files ∧
        rowsAt files 1 = rowsAt [⟨true, []⟩, ⟨true, []⟩] 1 ++ [⟨50000000, .fin (10 - 80)⟩] ∧
        files.length = [(⟨true, []⟩ : OfStream), ⟨true, []⟩].length ∧
        ∀ j, j ≠ 1 → files[j]? = [(⟨true, []⟩ : OfStream), ⟨true, []⟩][j]? :=
  PathLossTraceSink_appends [⟨true, []⟩, ⟨true, []⟩] 1 50000000 80 ⟨true, []⟩ rfl rfl

/-! ## C10: the frame of one call -/

theorem ThroughputTrace_lastTime (s : TraceState) (c : Str) (n t : Nat) :
    (ThroughputTrace s c n t).state.lastTime = s.lastTime ∨
      (windowCloses (s.lastTime c) t ∧ (ThroughputTrace s c n t).fault = none ∧
        (ThroughputTrace s c n t).state.lastTime = Function.update s.lastTime c t) := by
  by_cases h : windowCloses (s.lastTime c) t
  · cases hr : nodeIdOfContext c with
    | error e => rw [ThroughputTrace_threw s c n t e h hr]; exact Or.inl rfl
    | ok r =>
      cases r with
      | none => rw [ThroughputTrace_dropped s c n t h hr]; exact Or.inr ⟨h, rfl, rfl⟩
      | some i =>
        rcases writeRow_cases s.g_throughputFiles i
            ⟨t, throughputOf ((addBytes s c n).bytesReceived c) t⟩ with hw | ⟨f, hf, ho, -⟩
        · rw [ThroughputTrace_index s c n t i _ h hr hw]; exact Or.inr ⟨h, rfl, rfl⟩
        · rw [ThroughputTrace_emits s c n t i f h hr hf ho]; exact Or.inr ⟨h, rfl, rfl⟩
  · rw [ThroughputTrace_open_window s c n t h]; exact Or.inl rfl

theorem ThroughputTrace_fault_iff (s : TraceState) (c : Str) (n t : Nat) (x : Fault) :
    (ThroughputTrace s c n t).fault = some x ↔
      windowCloses (s.lastTime c) t ∧ nodeIdOfContext c = .error x := by
  by_cases h : windowCloses (s.lastTime c) t
  · cases hr : nodeIdOfContext c with
    | error e =>
      rw [ThroughputTrace_threw s c n t e h hr]
      constructor
      · intro hx
        have hx2 : e = x := Option.some.inj hx
        exact ⟨h, by rw [hx2]⟩
      · rintro ⟨-, hx⟩
        have hx2 : e = x := Except.error.inj hx
        exact congrArg some hx2
    | ok r =>
      have hno : (ThroughputTrace s c n t).fault = none := by
        cases r with
        | none => rw [ThroughputTrace_dropped s c n t h hr]
        | some i =>
          rcases writeRow_cases s.g_throughputFiles i
              ⟨t, throughputOf ((addBytes s c n).bytesReceived c) t⟩ with hw | ⟨f, hf, ho, -⟩
          · rw [ThroughputTrace_index s c n t i _ h hr hw]
          · rw [ThroughputTrace_emits s c n t i f h hr hf ho]
      rw [hno]
      constructor
      · intro hx; cases hx
      · rintro ⟨-, hx⟩; cases hx
  · rw [ThroughputTrace_open_window s c n t h]
    constructor
    · intro hx; cases hx
    · rintro ⟨hc, -⟩; exact absurd hc h

/-- The frame of one call of `ThroughputTrace` that ends without a fault: when
the window closes the last time of the context becomes the current time, whether
or not a row was written; when it does not, the last time is kept; and the last
time and the byte counter of every other context are kept, also when the call
ends with a fault. -/
theorem ThroughputTrace_frame (s : TraceState) (c : Str) (n t : Nat) :
    ((ThroughputTrace s c n t).fault = none → windowCloses (s.lastTime c) t →
        (ThroughputTrace s c n t).state.lastTime c = t) ∧
      (¬ windowCloses (s.lastTime c) t →
        (ThroughputTrace s c n t).state.lastTime c = s.lastTime c) ∧
      ∀ d, d ≠ c →
        (ThroughputTrace s c n t).state.lastTime d = s.lastTime d ∧
          (ThroughputTrace s c n t).state.bytesReceived d = s.bytesReceived d := by
  refine ⟨?_, ?_, ?_⟩
  · intro hno hw
    cases hr : nodeIdOfContext c with
    | error e =>
      have := (ThroughputTrace_fault_iff s c n t e).mpr ⟨hw, hr⟩
      rw [hno] at this
      cases this
    | ok r =>
      cases r with
      | none => rw [ThroughputTrace_dropped s c n t hw hr]; simp [setLastTime]
      | some i =>
        rcases writeRow_cases s.g_throughputFiles i
            ⟨t, throughputOf ((addBytes s c n).bytesReceived c) t⟩ with h1 | ⟨f, hf, ho, -⟩
        · rw [ThroughputTrace_index s c n t i _ hw hr h1]; simp [setLastTime]
        · rw [ThroughputTrace_emits s c n t i f hw hr hf ho]; simp [setLastTime]
  · intro hw
    rw [ThroughputTrace_open_window s c n t hw]
    rfl
  · intro d hd
    constructor
    · rcases ThroughputTrace_lastTime s c n t with h | ⟨-, -, h⟩
      · rw [h]
      · rw [h, Function.update_noteq hd]
    · rw [ThroughputTrace_bytesReceived, addBytes_other s c d n hd]

/-- C10 fails on the code at the context `/NodeList/abc/Rx`: on fresh statics the
window closes at 0.05 s, `std::stoul` throws `std::invalid_argument` before the
statement `lastTime[context] = now` is reached, and the last time of the context
is left at 0 while its byte counter has already been raised. -/
theorem ThroughputTrace_throw_skips_lastTime :
    windowCloses ((freshState [⟨true, []⟩]).lastTime "/NodeList/abc/Rx".toList) 50000000 ∧
      (ThroughputTrace (freshState [⟨true, []⟩]) "/NodeList/abc/Rx".toList 1024 50000000).fault =
        some .invalid_argument ∧
      (ThroughputTrace (freshState [⟨true, []⟩]) "/NodeList/abc/Rx".toList 1024 50000000
        ).state.lastTime "/NodeList/abc/Rx".toList = 0 ∧
      (ThroughputTrace (freshState [⟨true, []⟩]) "/NodeList/abc/Rx".toList 1024 50000000
        ).state.bytesReceived "/NodeList/abc/Rx".toList = 1024 := by
  decide

/-! ## C6: the effective gain -/

theorem stoul_empty : stoul [] = .error .invalid_argument := by
  decide

theorem ThroughputTrace_fault_of_segment (s : TraceState) (pre seg post : Str) (n t : Nat)
    (x : Fault) (hfirst : ¬ nodeListMarker <:+: pre ++ nodeListMarker.dropLast)
    (hseg : '/' ∉ seg) (hx : stoul seg = .error x)
    (hw : windowCloses (s.lastTime (pre ++ (nodeListMarker ++ (seg ++ (slash ++ post))))) t) :
    (ThroughputTrace s (pre ++ (nodeListMarker ++ (seg ++ (slash ++ post)))) n t).fault =
      some x := by
  rw [ThroughputTrace_fault_iff]
  refine ⟨hw, ?_⟩
  rw [nodeIdOfContext_segment pre seg post hfirst hseg, hx]

/-- C11 fails on the code at each of its three example contexts: on fresh
statics, where the window closes at 0.05 s, `std::stoul` throws
`std::invalid_argument` for the empty segment of `/NodeList//Rx` and for the
segment `abc` of `/NodeList/abc/Rx`, and `std::out_of_range` for the segment of
`/NodeList/99999999999999999999999/Rx`; nothing catches the exception, so the call
of `ThroughputTrace` ends with it instead of dropping the sample. -/
theorem ThroughputTrace_throws_on_bad_segment :
    windowCloses ((freshState [⟨true, []⟩]).lastTime "/NodeList//Rx".toList) 50000000 ∧
      (ThroughputTrace (freshState [⟨true, []⟩]) "/NodeList//Rx".toList 1024 50000000).fault =
        some .invalid_argument ∧
      (ThroughputTrace (freshState [⟨true, []⟩]) "/NodeList/abc/Rx".toList 1024 50000000).fault =
        some .invalid_argument ∧
      (ThroughputTrace (freshState [⟨true, []⟩])
          "/NodeList/99999999999999999999999/Rx".toList 1024 50000000).fault =
        some .out_of_range := by
  decide

end IrsJam
